import Mathlib

/-!
# Glid: repository-manifest editor and link list (`src/App.jsx`)

A shallow embedding of the state-changing handlers of `src/App.jsx`:
the hook `useFileUploadStore`, the handlers of `MergedUploadScreen` and the
handlers of `LinksScreen`.

Modelling conventions.

* A JavaScript value that came out of `JSON.parse` (or was built from such
  values by the handlers) is a `Json`. Object members are kept in own-key
  order. A number is identified by its `Number::toString` rendering.
* JavaScript `undefined` (a missing property) is `none : Option Json`.
* A JavaScript string is a Lean `String` (strings with unpaired surrogates
  are outside the model).
* Code that can throw returns `Except JsError _`.
* `JSON.parse`, `String.prototype.toLowerCase`, `Date`, `confirm` are
  supplied by the browser; their results are parameters of the handlers.
-/

namespace Glid

/-! ## JavaScript values -/

/-- Values produced by `JSON.parse` and by the handlers of `App.jsx`. -/
inductive Json where
  | null : Json
  | bool (b : Bool) : Json
  | num (text : String) : Json
  | str (s : String) : Json
  | arr (xs : List Json) : Json
  | obj (kvs : List (String × Json)) : Json

/-- An exception value: the constructor name and the `message` property. -/
structure JsError where
  name : String
  message : String
deriving DecidableEq, Repr

/-- Own data property lookup on the member list of an object. -/
def lookup (k : String) : List (String × Json) → Option Json
  | [] => none
  | (k', v) :: rest => if k' = k then some v else lookup k rest

/-- The effect of `{ ...o, k: v }` on the member list of `o`: an existing
own key keeps its position and takes the new value, a new key (not an array
index) is added last. -/
def setKey (k : String) (v : Json) : List (String × Json) → List (String × Json)
  | [] => [(k, v)]
  | (k', v') :: rest => if k' = k then (k, v) :: rest else (k', v') :: setKey k v rest

/-- Property read `v.k` for a property name `k` that no built-in prototype
defines (`apps`, `name`, `id`): reading from `null` throws, an object
answers with its own member, every other value answers `undefined`. -/
def getProp (v : Json) (k : String) : Except JsError (Option Json) :=
  match v with
  | Json.null =>
      Except.error ⟨"TypeError", "Cannot read properties of null (reading '" ++ k ++ "')"⟩
  | Json.obj kvs => Except.ok (lookup k kvs)
  | _ => Except.ok none

/-- JavaScript truthiness (`ToBoolean`) of a possibly-`undefined` value. -/
def truthy : Option Json → Bool
  | none => false
  | some Json.null => false
  | some (Json.bool b) => b
  | some (Json.num t) => !(t = "0" || t = "NaN")
  | some (Json.str s) => !(s = "")
  | some (Json.arr _) => true
  | some (Json.obj _) => true

/-- Predicate `Array.isArray`. -/
def isArray : Option Json → Bool
  | some (Json.arr _) => true
  | _ => false

mutual
/-- Conversion `ToString` as done by a template literal. An object goes
through `OrdinaryToPrimitive` with hint string: an own member `toString` is
never callable and `Object.prototype.valueOf` returns the object itself, so
such an object cannot be converted; an object without it renders through
`Object.prototype.toString`. An array renders through
`Array.prototype.join` with the separator `","`. -/
def jsToString : Json → Except JsError String
  | Json.null => Except.ok "null"
  | Json.bool b => Except.ok (if b then "true" else "false")
  | Json.num t => Except.ok t
  | Json.str s => Except.ok s
  | Json.arr xs =>
      match jsJoinItems xs with
      | Except.error e => Except.error e
      | Except.ok items => Except.ok (String.intercalate "," items)
  | Json.obj kvs =>
      match lookup "toString" kvs with
      | some _ => Except.error ⟨"TypeError", "Cannot convert object to primitive value"⟩
      | none => Except.ok "[object Object]"
termination_by structural v => v
/-- The texts joined by `Array.prototype.join`, left to right: a `null`
element gives the empty string, any other element its `ToString`. -/
def jsJoinItems : List Json → Except JsError (List String)
  | [] => Except.ok []
  | x :: rest =>
      match (match x with
             | Json.null => Except.ok ""
             | v => jsToString v) with
      | Except.error e => Except.error e
      | Except.ok s =>
          match jsJoinItems rest with
          | Except.error e => Except.error e
          | Except.ok items => Except.ok (s :: items)
termination_by structural xs => xs
end

/-- Conversion `ToString` of a possibly-`undefined` value. -/
def jsToStringOpt : Option Json → Except JsError String
  | none => Except.ok "undefined"
  | some v => jsToString v

/-! ## `JSON.stringify(value, null, gap)` -/

/-- Lower-case hexadecimal digit of a number below sixteen. -/
def hexDigit (n : Nat) : Char :=
  if n < 10 then Char.ofNat (48 + n) else Char.ofNat (87 + n)

/-- One character inside `QuoteJSONString`: the quotation mark, the
backslash and the control characters are escaped. -/
def quoteChar (c : Char) : String :=
  if c.toNat = 34 then "\\\""
  else if c.toNat = 92 then "\\\\"
  else if c.toNat = 8 then "\\b"
  else if c.toNat = 12 then "\\f"
  else if c.toNat = 10 then "\\n"
  else if c.toNat = 13 then "\\r"
  else if c.toNat = 9 then "\\t"
  else if c.toNat < 32 then
    "\\u00" ++ String.mk [hexDigit (c.toNat / 16), hexDigit (c.toNat % 16)]
  else String.singleton c

/-- Operation `QuoteJSONString`. -/
def quoteJSONString (s : String) : String :=
  "\"" ++ String.join (s.data.map quoteChar) ++ "\""

/-- Text of a number in `JSON.stringify`: a non-finite number gives
`null`. -/
def stringifyNum (t : String) : String :=
  if t = "Infinity" || t = "-Infinity" || t = "NaN" then "null" else t

/-- Separator between two members or elements at indentation `indent`. -/
def stringifySep (gap indent : String) : String :=
  if gap = "" then "," else ",\n" ++ indent

/-- Text between the opening bracket and the first member. -/
def stringifyOpen (gap indent : String) : String :=
  if gap = "" then "" else "\n" ++ indent

/-- Text between the last member and the closing bracket, `stepback`
being the indentation of the enclosing level. -/
def stringifyClose (gap stepback : String) : String :=
  if gap = "" then "" else "\n" ++ stepback

/-- Text between the colon and a member value. -/
def stringifyColon (gap : String) : String :=
  if gap = "" then ":" else ": "

mutual
/-- Operation `SerializeJSONProperty` on a value at indentation `indent`
(`SerializeJSONObject` and `SerializeJSONArray` included). No value of type
`Json` is callable, so no `toJSON` member is ever called and no member is
left out. -/
def stringify (gap indent : String) : Json → String
  | Json.null => "null"
  | Json.bool b => if b then "true" else "false"
  | Json.num t => stringifyNum t
  | Json.str s => quoteJSONString s
  | Json.arr [] => "[]"
  | Json.arr (x :: rest) =>
      "[" ++ stringifyOpen gap (indent ++ gap) ++ stringify gap (indent ++ gap) x ++
        stringifyElems gap (indent ++ gap) rest ++ stringifyClose gap indent ++ "]"
  | Json.obj [] => "\x7b\x7d"
  | Json.obj ((k, v) :: rest) =>
      "\x7b" ++ stringifyOpen gap (indent ++ gap) ++ quoteJSONString k ++ stringifyColon gap ++
        stringify gap (indent ++ gap) v ++
        stringifyMembers gap (indent ++ gap) rest ++ stringifyClose gap indent ++ "\x7d"
termination_by structural v => v
/-- The elements of an array after the first. -/
def stringifyElems (gap indent : String) : List Json → String
  | [] => ""
  | x :: rest =>
      stringifySep gap indent ++ stringify gap indent x ++ stringifyElems gap indent rest
termination_by structural xs => xs
/-- The members of an object after the first. -/
def stringifyMembers (gap indent : String) : List (String × Json) → String
  | [] => ""
  | (k, v) :: rest =>
      stringifySep gap indent ++ quoteJSONString k ++ stringifyColon gap ++
        stringify gap indent v ++ stringifyMembers gap indent rest
termination_by structural kvs => kvs
end

/-- Call `JSON.stringify(value, null, 2)`: the gap is two spaces. -/
def jsonStringify2 (v : Json) : String := stringify "  " "" v

/-- Call `JSON.stringify(value)`: no gap. -/
def jsonStringify (v : Json) : String := stringify "" "" v

/-! ## The store of `useFileUploadStore` -/

/-- One entry of the activity log, as built by `addLog`. -/
structure LogEntry where
  type : String
  message : String
  timestamp : String
deriving DecidableEq, Repr

/-- The part of the hook state the handlers below read or write:
`appRepository` (initially `null`) and `logs` (initially empty). -/
structure Store where
  appRepository : Json
  logs : List LogEntry

/-- State of a freshly mounted editor: `useState(null)`, `useState([])`. -/
def Store.initial : Store := ⟨Json.null, []⟩

/-- Function `addLog(type, message)`; `now` is the value of
`new Date().toLocaleTimeString()` at the call. -/
def addLog (now : String) (st : Store) (type message : String) : Store :=
  { st with logs := st.logs ++ [⟨type, message, now⟩] }

/-! ## `loadJsonFile`: the `reader.onload` handler (lines 149-160) -/

/-- Body of the `try` block: the store reached when the block ends or
throws, and the thrown exception if any. `parse` is `JSON.parse`. -/
def loadJsonFileTry (parse : String → Except JsError Json) (now : String) (st : Store)
    (text : String) : Store × Option JsError :=
  match parse text with
  | Except.error e => (st, some e)
  | Except.ok jsonData =>
    match getProp jsonData "apps" with
    | Except.error e => (st, some e)
    | Except.ok apps =>
      if !truthy apps || !isArray apps then
        (st, some ⟨"Error", "Invalid JSON structure: missing apps array"⟩)
      else
        let st1 : Store := { st with appRepository := jsonData }
        match getProp jsonData "name" with
        | Except.error e => (st1, some e)
        | Except.ok name =>
          match jsToStringOpt name with
          | Except.error e => (st1, some e)
          | Except.ok nameText =>
            match apps with
            | some (Json.arr xs) =>
                (addLog now st1 "success"
                  ("Loaded JSON repository: " ++ nameText ++ " with " ++
                    toString xs.length ++ " apps"), none)
            | _ => (st1, some ⟨"TypeError", "Cannot read properties of undefined (reading 'length')"⟩)

/-- Handler `reader.onload` of `loadJsonFile`: the `try` block followed by
the `catch` clause. -/
def loadJsonFile (parse : String → Except JsError Json) (now : String) (st : Store)
    (text : String) : Store :=
  match loadJsonFileTry parse now st text with
  | (st1, none) => st1
  | (st1, some parseError) =>
      addLog now st1 "error" ("Failed to parse JSON: " ++ parseError.message)

/-! ## `updateAppInRepository` (lines 28-43) -/

/-- Callback of `appRepository.apps.map`: reading `app.name` throws on
`null`; only an object can have a `name` strictly equal to the string
`appName`, and it is then copied with one member replaced. -/
def updateApp (appName type data : String) : Json → Except JsError Json
  | Json.null =>
      Except.error ⟨"TypeError", "Cannot read properties of null (reading 'name')"⟩
  | Json.obj kvs =>
      match lookup "name" kvs with
      | some (Json.str s) =>
          if s = appName then
            if type = "image" then
              Except.ok (Json.obj (setKey "iconURL" (Json.str data) kvs))
            else
              Except.ok (Json.obj (setKey "downloadURL" (Json.str data) kvs))
          else Except.ok (Json.obj kvs)
      | _ => Except.ok (Json.obj kvs)
  | v => Except.ok v

/-- Method `Array.prototype.map` with a callback that can throw: the
elements are visited left to right and the first exception ends the call. -/
def mapArray (f : Json → Except JsError Json) : List Json → Except JsError (List Json)
  | [] => Except.ok []
  | x :: rest =>
      match f x with
      | Except.error e => Except.error e
      | Except.ok y =>
          match mapArray f rest with
          | Except.error e => Except.error e
          | Except.ok ys => Except.ok (y :: ys)

/-- Function `updateAppInRepository(appName, type, data)`: the store after
the call, or the exception it throws. -/
def updateAppInRepository (st : Store) (appName type data : String) : Except JsError Store :=
  if !truthy (some st.appRepository) then Except.ok st
  else
    match st.appRepository with
    | Json.obj kvs =>
        match lookup "apps" kvs with
        | some (Json.arr xs) =>
            match mapArray (updateApp appName type data) xs with
            | Except.error e => Except.error e
            | Except.ok updatedApps =>
                Except.ok { st with
                  appRepository := Json.obj (setKey "apps" (Json.arr updatedApps) kvs) }
        | some Json.null =>
            Except.error ⟨"TypeError", "Cannot read properties of null (reading 'map')"⟩
        | none =>
            Except.error ⟨"TypeError", "Cannot read properties of undefined (reading 'map')"⟩
        | some _ => Except.error ⟨"TypeError", "appRepository.apps.map is not a function"⟩
    | _ => Except.error ⟨"TypeError", "Cannot read properties of undefined (reading 'map')"⟩

/-! ## Export (lines 45-47, 167-188, 275) -/

/-- Function `exportRepository()`. -/
def exportRepository (st : Store) : String := jsonStringify2 st.appRepository

/-- A file handed to the browser for download. -/
structure Download where
  filename : String
  content : String
deriving DecidableEq, Repr

/-- Function `exportJson()`: the store after the call and the file
downloaded, if any. -/
def exportJson (now : String) (st : Store) : Except JsError (Store × Option Download) :=
  if !truthy (some st.appRepository) then Except.ok (st, none)
  else
    let jsonString := exportRepository st
    match getProp st.appRepository "name" with
    | Except.error e => Except.error e
    | Except.ok name =>
        match (if truthy name then jsToStringOpt name else Except.ok "repository") with
        | Except.error e => Except.error e
        | Except.ok base =>
            Except.ok (addLog now st "success" "Repository JSON downloaded",
              some ⟨base ++ ".json", jsonString⟩)

/-- The "Copy JSON" button, `copyToClipboard(exportRepository())`:
`granted` tells whether `navigator.clipboard.writeText` resolves. The
result is the store and the text put on the clipboard, if any. -/
def copyJson (granted : Bool) (now : String) (st : Store) : Store × Option String :=
  if granted then
    (addLog now st "success" "Repository JSON copied to clipboard", some (exportRepository st))
  else
    (addLog now st "error" "Failed to copy JSON to clipboard", none)

/-! ## `clearRepository` (lines 190-205) -/

/-- The object literal passed to `setAppRepository` by `clearRepository`. -/
def clearedRepository : Json :=
  Json.obj [("website", Json.str ""), ("subtitle", Json.str ""), ("iconURL", Json.str ""),
    ("tintColor", Json.str ""), ("identifier", Json.str ""), ("featuredApps", Json.arr []),
    ("description", Json.str ""), ("name", Json.str "New Repository"), ("apps", Json.arr [])]

/-- Function `clearRepository()`; `confirmed` is the answer of `confirm`. -/
def clearRepository (confirmed : Bool) (now : String) (st : Store) : Store :=
  if confirmed then
    addLog now { st with appRepository := clearedRepository } "info" "Repository cleared"
  else st

/-! ## `filteredApps` (lines 259-261) -/

/-- Method `String.prototype.includes` (from position zero): some suffix of
`s` starts with `t`. -/
def jsIncludes (s t : String) : Bool :=
  s.data.tails.any (fun u => t.data.isPrefixOf u)

/-- Callback of the filter: `app.name.toLowerCase()` needs `app.name` to be
a string (no value of type `Json` is callable, so no other value has a
usable `toLowerCase`). `lower` is `String.prototype.toLowerCase`. -/
def matchesQuery (lower : String → String) (searchQuery : String) : Json → Except JsError Bool
  | Json.null =>
      Except.error ⟨"TypeError", "Cannot read properties of null (reading 'name')"⟩
  | Json.obj kvs =>
      match lookup "name" kvs with
      | some (Json.str s) => Except.ok (jsIncludes (lower s) (lower searchQuery))
      | some Json.null =>
          Except.error ⟨"TypeError", "Cannot read properties of null (reading 'toLowerCase')"⟩
      | none =>
          Except.error
            ⟨"TypeError", "Cannot read properties of undefined (reading 'toLowerCase')"⟩
      | some _ => Except.error ⟨"TypeError", "app.name.toLowerCase is not a function"⟩
  | _ =>
      Except.error ⟨"TypeError", "Cannot read properties of undefined (reading 'toLowerCase')"⟩

/-- Method `Array.prototype.filter` with a callback that can throw. -/
def filterArray (f : Json → Except JsError Bool) : List Json → Except JsError (List Json)
  | [] => Except.ok []
  | x :: rest =>
      match f x with
      | Except.error e => Except.error e
      | Except.ok keep =>
          match filterArray f rest with
          | Except.error e => Except.error e
          | Except.ok ys => Except.ok (if keep then x :: ys else ys)

/-- Expression `filteredApps`, evaluated on every render: the optional
chain stops only at a `null` repository, and an array is truthy, so the
fallback `[]` is taken only in that case. -/
def filteredApps (lower : String → String) (st : Store) (searchQuery : String) :
    Except JsError (List Json) :=
  match st.appRepository with
  | Json.null => Except.ok []
  | Json.obj kvs =>
      match lookup "apps" kvs with
      | some (Json.arr xs) => filterArray (matchesQuery lower searchQuery) xs
      | some Json.null =>
          Except.error ⟨"TypeError", "Cannot read properties of null (reading 'filter')"⟩
      | none =>
          Except.error ⟨"TypeError", "Cannot read properties of undefined (reading 'filter')"⟩
      | some _ => Except.error ⟨"TypeError", "appRepository?.apps.filter is not a function"⟩
  | _ => Except.error ⟨"TypeError", "Cannot read properties of undefined (reading 'filter')"⟩

/-! ## `LinksScreen` (lines 379-405) -/

/-- State of `LinksScreen`: `links` (initially `[]`) and the text of the
input box `newLink` (initially empty). -/
structure LinksState where
  links : Json
  newLink : String

/-- State of a freshly mounted `LinksScreen`. -/
def LinksState.initial : LinksState := ⟨Json.arr [], ""⟩

/-- Code points removed by `String.prototype.trim`: white space and line
terminators. -/
def isJsWhiteSpace (c : Char) : Bool :=
  c.toNat ∈ [0x9, 0xA, 0xB, 0xC, 0xD, 0x20, 0xA0, 0x1680, 0x2000, 0x2001, 0x2002, 0x2003,
    0x2004, 0x2005, 0x2006, 0x2007, 0x2008, 0x2009, 0x200A, 0x2028, 0x2029, 0x202F, 0x205F,
    0x3000, 0xFEFF]

/-- Method `String.prototype.trim`. -/
def jsTrim (s : String) : String :=
  String.mk ((s.data.dropWhile isJsWhiteSpace).reverse.dropWhile isJsWhiteSpace).reverse

/-- The first effect of `LinksScreen` (lines 383-389), run once on mount:
`stored` is the result of `localStorage.getItem`, `none` for `null`; an
empty text is falsy; `parse` is `JSON.parse`, whose exception is not
caught. -/
def loadLinks (parse : String → Except JsError Json) (s : LinksState)
    (stored : Option String) : Except JsError LinksState :=
  match stored with
  | none => Except.ok s
  | some text =>
      if text = "" then Except.ok s
      else
        match parse text with
        | Except.error e => Except.error e
        | Except.ok v => Except.ok { s with links := v }

/-- The second effect of `LinksScreen` (lines 391-394): the text written
under the key `userLinks`. -/
def saveLinks (s : LinksState) : String := jsonStringify s.links

/-- Function `handleAddLink()`; `now` is the value of `Date.now()`. The
spread `[...links, entry]` needs an iterable: an array, or a string, which
yields its code points. -/
def handleAddLink (now : Nat) (s : LinksState) : Except JsError LinksState :=
  if jsTrim s.newLink ≠ "" then
    let entry := Json.obj [("id", Json.num (toString now)), ("url", Json.str (jsTrim s.newLink))]
    match s.links with
    | Json.arr xs => Except.ok ⟨Json.arr (xs ++ [entry]), ""⟩
    | Json.str t =>
        Except.ok ⟨Json.arr (t.data.map (fun c => Json.str (String.singleton c)) ++ [entry]), ""⟩
    | _ => Except.error ⟨"TypeError", "links is not iterable"⟩
  else Except.ok s

/-- A primitive value or `undefined`: what `link.id` is compared with. -/
inductive JsPrim where
  | undefined : JsPrim
  | null : JsPrim
  | bool (b : Bool) : JsPrim
  | num (text : String) : JsPrim
  | str (s : String) : JsPrim
deriving DecidableEq, Repr

/-- Strict inequality `v !== p` of a possibly-`undefined` value with a
primitive: an array or an object is never equal to a primitive. -/
def strictNe : Option Json → JsPrim → Bool
  | none, JsPrim.undefined => false
  | some Json.null, JsPrim.null => false
  | some (Json.bool a), JsPrim.bool b => !(a = b)
  | some (Json.num a), JsPrim.num b => !(a = b) || a = "NaN"
  | some (Json.str a), JsPrim.str b => !(a = b)
  | _, _ => true

/-- Callback of the filter in `handleDeleteLink`: `link.id !== id`. -/
def keepLink (id : JsPrim) (link : Json) : Except JsError Bool :=
  match getProp link "id" with
  | Except.error e => Except.error e
  | Except.ok v => Except.ok (strictNe v id)

/-- Function `handleDeleteLink(id)`. -/
def handleDeleteLink (id : JsPrim) (s : LinksState) : Except JsError LinksState :=
  match s.links with
  | Json.arr xs =>
      match filterArray (keepLink id) xs with
      | Except.error e => Except.error e
      | Except.ok ys => Except.ok { s with links := Json.arr ys }
  | Json.null =>
      Except.error ⟨"TypeError", "Cannot read properties of null (reading 'filter')"⟩
  | _ => Except.error ⟨"TypeError", "links.filter is not a function"⟩

/-! ## Vocabulary of the specification -/

/-- Member `k` of a value, `none` when the value is not an object or has no
such member. -/
def field (v : Json) (k : String) : Option Json :=
  match v with
  | Json.obj kvs => lookup k kvs
  | _ => none

/-- The `apps` sequence of a value: present exactly when the value is an
object whose `apps` member is an array. -/
def appsOf (v : Json) : Option (List Json) :=
  match field v "apps" with
  | some (Json.arr xs) => some xs
  | _ => none

/-- The `name` of an entry, when the entry is an object whose `name` member
is a string. -/
def entryName (e : Json) : Option String :=
  match field e "name" with
  | some (Json.str n) => some n
  | _ => none

/-- An App Entry of the data model: an object carrying a string `name`. -/
def isAppEntry (e : Json) : Bool := (entryName e).isSome

/-- The search filter in the words of the specification: the entry has a
name whose lower-cased form contains the lower-cased query as a contiguous
run of characters. -/
def nameContains (lower : String → String) (q : String) (e : Json) : Bool :=
  match entryName e with
  | some n => decide ((lower q).data <:+: (lower n).data)
  | none => false

/-- Lower-casing restricted to the letters `A` to `Z`, on which it agrees
with `String.prototype.toLowerCase` for texts made of ASCII characters. -/
def asciiLower (s : String) : String := String.mk (s.data.map Char.toLower)

/-- A manifest with three entries, named `Calendar`, `Notes` and `Rescale`. -/
def calendarManifest : Json :=
  Json.obj [("name", Json.str "Tools"), ("apps", Json.arr [
    Json.obj [("name", Json.str "Calendar"), ("identifier", Json.str "id.calendar")],
    Json.obj [("name", Json.str "Notes"), ("identifier", Json.str "id.notes")],
    Json.obj [("name", Json.str "Rescale"), ("identifier", Json.str "id.rescale")]])]

/-- Attachment in the words of the specification: an entry named `X` gets
its member `key` set to the data string, any other entry is left alone. -/
def attachTo (key X d : String) (e : Json) : Json :=
  if entryName e = some X then
    match e with
    | Json.obj kvs => Json.obj (setKey key (Json.str d) kvs)
    | v => v
  else e

/-- The member written by an attachment of the given kind. -/
def attachKey (type : String) : String :=
  if type = "image" then "iconURL" else "downloadURL"

/-- The entry of the scenario manifest: `name` is `A`, `identifier` is
`id1`. -/
def demoEntry : Json :=
  Json.obj [("name", Json.str "A"), ("identifier", Json.str "id1")]

/-- The scenario manifest: `name` is `Demo`, `apps` holds `demoEntry`. -/
def demoManifest : Json :=
  Json.obj [("name", Json.str "Demo"), ("apps", Json.arr [demoEntry])]

/-- Two link entries that carry the same id. -/
def duplicateLinks : List Json :=
  [Json.obj [("id", Json.num "1"), ("url", Json.str "a.example")],
   Json.obj [("id", Json.num "1"), ("url", Json.str "b.example")]]

/-- A run of `n` spaces. -/
def spaces (n : Nat) : String := String.mk (List.replicate n (Char.ofNat 32))

mutual
/-- The 2-space-indented JSON text in the words of the specification: a
value nested `depth` levels deep; every member of an object and every
element of an array stands on a line of its own behind `2 * (depth + 1)`
spaces, and the closing bracket stands on a line of its own behind
`2 * depth` spaces. -/
def prettyJson (depth : Nat) : Json → String
  | Json.null => "null"
  | Json.bool b => if b then "true" else "false"
  | Json.num t => stringifyNum t
  | Json.str s => quoteJSONString s
  | Json.arr [] => "[]"
  | Json.arr (x :: rest) =>
      "[\n" ++ spaces (2 * (depth + 1)) ++ prettyJson (depth + 1) x ++
        prettyElems (depth + 1) rest ++ "\n" ++ spaces (2 * depth) ++ "]"
  | Json.obj [] => "\x7b\x7d"
  | Json.obj ((k, v) :: rest) =>
      "\x7b\n" ++ spaces (2 * (depth + 1)) ++ quoteJSONString k ++ ": " ++
        prettyJson (depth + 1) v ++ prettyMembers (depth + 1) rest ++ "\n" ++
        spaces (2 * depth) ++ "\x7d"
termination_by structural v => v
/-- The elements of an array after the first, each on its own line. -/
def prettyElems (depth : Nat) : List Json → String
  | [] => ""
  | x :: rest =>
      ",\n" ++ spaces (2 * depth) ++ prettyJson depth x ++ prettyElems depth rest
termination_by structural xs => xs
/-- The members of an object after the first, each on its own line. -/
def prettyMembers (depth : Nat) : List (String × Json) → String
  | [] => ""
  | (k, v) :: rest =>
      ",\n" ++ spaces (2 * depth) ++ quoteJSONString k ++ ": " ++ prettyJson depth v ++
        prettyMembers depth rest
termination_by structural kvs => kvs
end

/-- A manifest whose `name` needs escaping and whose members cover the
scalar kinds. -/
def escapedManifest : Json :=
  Json.obj [("name", Json.str "Q\"uo\\te\n\x01"), ("apps", Json.arr []),
    ("version", Json.num "1.5"), ("featured", Json.bool true), ("website", Json.null)]

/-- A manifest that Load JSON accepts and whose second entry has no `name`. -/
def namelessManifest : Json :=
  Json.obj [("apps", Json.arr [Json.obj [("name", Json.str "A")],
    Json.obj [("identifier", Json.str "x")]])]

/-! ## Facts about members, `map` and `filter` -/

theorem lookup_setKey_self (k : String) (v : Json) (kvs : List (String × Json)) :
    lookup k (setKey k v kvs) = some v := by
  induction kvs with
  | nil => simp [setKey, lookup]
  | cons p rest ih =>
    obtain ⟨k', v'⟩ := p
    by_cases h : k' = k
    · simp [setKey, lookup, h]
    · simp [setKey, lookup, h, ih]

theorem lookup_setKey_ne (k k' : String) (v : Json) (kvs : List (String × Json))
    (h : k' ≠ k) : lookup k' (setKey k v kvs) = lookup k' kvs := by
  induction kvs with
  | nil => simp [setKey, lookup, h.symm]
  | cons p rest ih =>
    obtain ⟨k'', v''⟩ := p
    by_cases h1 : k'' = k
    · subst h1
      simp [setKey, lookup, h.symm]
    · simp only [setKey, h1, if_false, lookup, ih]

theorem setKey_of_lookup (k : String) (v : Json) (kvs : List (String × Json))
    (h : lookup k kvs = some v) : setKey k v kvs = kvs := by
  induction kvs with
  | nil => simp [lookup] at h
  | cons p rest ih =>
    obtain ⟨k', v'⟩ := p
    by_cases h1 : k' = k
    · subst h1
      simp [lookup] at h
      simp [setKey, h]
    · simp only [lookup, h1, if_false] at h
      simp [setKey, h1, ih h]

theorem mapArray_eq_map (f : Json → Except JsError Json) (g : Json → Json) (xs : List Json)
    (h : ∀ x ∈ xs, f x = Except.ok (g x)) : mapArray f xs = Except.ok (xs.map g) := by
  induction xs with
  | nil => rfl
  | cons x rest ih =>
    have hx := h x (List.mem_cons_self x rest)
    have hr := ih (fun y hy => h y (List.mem_cons_of_mem x hy))
    simp [mapArray, hx, hr]

theorem filterArray_eq_filter (f : Json → Except JsError Bool) (p : Json → Bool)
    (xs : List Json) (h : ∀ x ∈ xs, f x = Except.ok (p x)) :
    filterArray f xs = Except.ok (xs.filter p) := by
  induction xs with
  | nil => rfl
  | cons x rest ih =>
    have hx := h x (List.mem_cons_self x rest)
    have hr := ih (fun y hy => h y (List.mem_cons_of_mem x hy))
    cases hp : p x <;> simp [filterArray, hx, hr, hp, List.filter]

theorem appsOf_eq_some (v : Json) (xs : List Json) (h : appsOf v = some xs) :
    ∃ kvs, v = Json.obj kvs ∧ lookup "apps" kvs = some (Json.arr xs) := by
  cases v with
  | obj kvs =>
    refine ⟨kvs, rfl, ?_⟩
    simp only [appsOf, field] at h
    cases hl : lookup "apps" kvs with
    | none => simp [hl] at h
    | some a =>
      cases a <;> simp [hl] at h
      simp [h]
  | _ => simp [appsOf, field] at h

theorem entryName_eq_some (e : Json) (n : String) (h : entryName e = some n) :
    ∃ kvs, e = Json.obj kvs ∧ lookup "name" kvs = some (Json.str n) := by
  cases e with
  | obj kvs =>
    refine ⟨kvs, rfl, ?_⟩
    simp only [entryName, field] at h
    cases hl : lookup "name" kvs with
    | none => simp [hl] at h
    | some a =>
      cases a <;> simp [hl] at h
      simp [h]
  | _ => simp [entryName, field] at h

/-! ## Loading a manifest -/

/-- Loading a text that parses to an object with an `apps` array of length
`N`, and whose `name` converts to a string, replaces the manifest by the
parsed object and appends one `success` entry that mentions `N`. -/
theorem loadJsonFile_of_valid (parse : String → Except JsError Json) (now : String)
    (st : Store) (text : String) (v : Json) (xs : List Json) (nameText : String)
    (hp : parse text = Except.ok v) (ha : appsOf v = some xs)
    (hn : jsToStringOpt (field v "name") = Except.ok nameText) :
    loadJsonFile parse now st text =
      ⟨v, st.logs ++ [⟨"success", "Loaded JSON repository: " ++ nameText ++ " with " ++
        toString xs.length ++ " apps", now⟩]⟩ := by
  obtain ⟨kvs, rfl, hl⟩ := appsOf_eq_some v xs ha
  simp only [field] at hn
  simp [loadJsonFile, loadJsonFileTry, hp, getProp, hl, truthy, isArray, hn, addLog]

/-- C1, at the input
`\x7b"apps":[],"name":\x7b"toString":null\x7d\x7d`: the text parses to
an object whose `apps` is an array of length 0, the manifest is replaced by
the parsed object, and the only log entry appended has type `error`, not
`success`. -/
theorem loadJsonFile_name_not_convertible :
    (loadJsonFile
        (fun _ => Except.ok
          (Json.obj [("apps", Json.arr []), ("name", Json.obj [("toString", Json.null)])]))
        "10:00:00" Store.initial
        "\x7b\"apps\":[],\"name\":\x7b\"toString\":null\x7d\x7d").appRepository =
      Json.obj [("apps", Json.arr []), ("name", Json.obj [("toString", Json.null)])] ∧
    (loadJsonFile
        (fun _ => Except.ok
          (Json.obj [("apps", Json.arr []), ("name", Json.obj [("toString", Json.null)])]))
        "10:00:00" Store.initial
        "\x7b\"apps\":[],\"name\":\x7b\"toString\":null\x7d\x7d").logs =
      [⟨"error", "Failed to parse JSON: Cannot convert object to primitive value",
        "10:00:00"⟩] := by
  constructor
  · rfl
  · decide

/-- C2: when the text does not parse, or parses to a value that has no
`apps` array, the manifest is left as it was and exactly one entry, of type
`error`, is appended to the log. -/
theorem loadJsonFile_of_invalid (parse : String → Except JsError Json) (now : String)
    (st : Store) (text : String)
    (h : ∀ v, parse text = Except.ok v → appsOf v = none) :
    ∃ msg, loadJsonFile parse now st text =
      ⟨st.appRepository, st.logs ++ [⟨"error", msg, now⟩]⟩ := by
  cases hp : parse text with
  | error e =>
    exact ⟨"Failed to parse JSON: " ++ e.message, by
      simp [loadJsonFile, loadJsonFileTry, hp, addLog]⟩
  | ok v =>
    have hv := h v hp
    cases v with
    | obj kvs =>
      refine ⟨"Failed to parse JSON: Invalid JSON structure: missing apps array", ?_⟩
      simp only [appsOf, field] at hv
      cases hl : lookup "apps" kvs with
      | none => simp [loadJsonFile, loadJsonFileTry, hp, getProp, hl, truthy, isArray, addLog]
      | some a =>
        cases a with
        | arr ys => simp [hl] at hv
        | null => simp [loadJsonFile, loadJsonFileTry, hp, getProp, hl, truthy, isArray, addLog]
        | bool b =>
          cases b <;>
            simp [loadJsonFile, loadJsonFileTry, hp, getProp, hl, truthy, isArray, addLog]
        | num t =>
          by_cases ht : t = "0" ∨ t = "NaN" <;>
            simp [loadJsonFile, loadJsonFileTry, hp, getProp, hl, truthy, isArray, addLog, ht]
        | str t =>
          by_cases ht : t = "" <;>
            simp [loadJsonFile, loadJsonFileTry, hp, getProp, hl, truthy, isArray, addLog, ht]
        | obj m => simp [loadJsonFile, loadJsonFileTry, hp, getProp, hl, truthy, isArray, addLog]
    | null =>
      exact ⟨"Failed to parse JSON: Cannot read properties of null (reading 'apps')", by
        simp [loadJsonFile, loadJsonFileTry, hp, getProp, addLog]⟩
    | bool b =>
      exact ⟨"Failed to parse JSON: Invalid JSON structure: missing apps array", by
        simp [loadJsonFile, loadJsonFileTry, hp, getProp, truthy, isArray, addLog]⟩
    | num t =>
      exact ⟨"Failed to parse JSON: Invalid JSON structure: missing apps array", by
        simp [loadJsonFile, loadJsonFileTry, hp, getProp, truthy, isArray, addLog]⟩
    | str t =>
      exact ⟨"Failed to parse JSON: Invalid JSON structure: missing apps array", by
        simp [loadJsonFile, loadJsonFileTry, hp, getProp, truthy, isArray, addLog]⟩
    | arr ys =>
      exact ⟨"Failed to parse JSON: Invalid JSON structure: missing apps array", by
        simp [loadJsonFile, loadJsonFileTry, hp, getProp, truthy, isArray, addLog]⟩

/-- C2 at a text that does not parse and at a store that already holds a
manifest. -/
theorem loadJsonFile_of_invalid_witness :
    ∃ msg, loadJsonFile (fun _ => Except.error ⟨"SyntaxError", "Unexpected end of JSON input"⟩)
        "10:00:00" ⟨Json.obj [("apps", Json.arr [])], []⟩ "\x7b" =
      ⟨(⟨Json.obj [("apps", Json.arr [])], []⟩ : Store).appRepository,
        (⟨Json.obj [("apps", Json.arr [])], []⟩ : Store).logs ++ [⟨"error", msg, "10:00:00"⟩]⟩ :=
  loadJsonFile_of_invalid _ "10:00:00" ⟨Json.obj [("apps", Json.arr [])], []⟩ "\x7b"
    (by intro v hv; cases hv)

/-! ## Attaching a file to an app -/

theorem updateApp_eq_attachTo (X type d : String) (e : Json) (h : e ≠ Json.null) :
    updateApp X type d e = Except.ok (attachTo (attachKey type) X d e) := by
  cases e with
  | null => exact absurd rfl h
  | obj kvs =>
    cases hl : lookup "name" kvs with
    | none => simp [updateApp, attachTo, entryName, field, hl]
    | some a =>
      cases a with
      | str n =>
        by_cases hn : n = X
        · by_cases ht : type = "image" <;>
            simp [updateApp, attachTo, entryName, field, hl, hn, ht, attachKey]
        · simp [updateApp, attachTo, entryName, field, hl, hn]
      | _ => simp [updateApp, attachTo, entryName, field, hl]
  | _ => simp [updateApp, attachTo, entryName, field]

theorem field_attachTo_self (key X d : String) (e : Json) (h : entryName e = some X) :
    field (attachTo key X d e) key = some (Json.str d) := by
  obtain ⟨kvs, rfl, _⟩ := entryName_eq_some e X h
  simp [attachTo, h, field, lookup_setKey_self]

theorem field_attachTo_ne (key X d : String) (e : Json) (k : String) (hk : k ≠ key) :
    field (attachTo key X d e) k = field e k := by
  by_cases h : entryName e = some X
  · obtain ⟨kvs, rfl, _⟩ := entryName_eq_some e X h
    simp [attachTo, h, field, lookup_setKey_ne _ _ _ _ hk]
  · simp [attachTo, h]

theorem attachTo_of_ne (key X d : String) (e : Json) (h : entryName e ≠ some X) :
    attachTo key X d e = e := by
  simp [attachTo, h]

theorem updateAppInRepository_eq (st : Store) (X type d : String)
    (kvs : List (String × Json)) (xs : List Json)
    (hr : st.appRepository = Json.obj kvs) (ha : lookup "apps" kvs = some (Json.arr xs))
    (hx : ∀ e ∈ xs, e ≠ Json.null) :
    updateAppInRepository st X type d =
      Except.ok ⟨Json.obj (setKey "apps" (Json.arr (xs.map (attachTo (attachKey type) X d))) kvs),
        st.logs⟩ := by
  have hm := mapArray_eq_map (updateApp X type d) (attachTo (attachKey type) X d) xs
    (fun e he => updateApp_eq_attachTo X type d e (hx e he))
  simp [updateAppInRepository, hr, truthy, ha, hm]

/-- C3: on a loaded manifest (an object whose `apps` is an array without
`null` elements), attaching an image to the name `X` sets `iconURL` to the
data string on every entry named `X`, attaching a document sets
`downloadURL`; every other member of such an entry, every entry with another
name, the number and order of the entries, every top-level member other
than `apps`, and the log are unchanged. -/
theorem updateAppInRepository_attach (st : Store) (X d : String)
    (xs : List Json) (ha : appsOf st.appRepository = some xs)
    (hx : ∀ e ∈ xs, e ≠ Json.null) :
    ∃ stImage stDocument : Store,
      updateAppInRepository st X "image" d = Except.ok stImage ∧
      updateAppInRepository st X "document" d = Except.ok stDocument ∧
      appsOf stImage.appRepository = some (xs.map (attachTo "iconURL" X d)) ∧
      appsOf stDocument.appRepository = some (xs.map (attachTo "downloadURL" X d)) ∧
      (xs.map (attachTo "iconURL" X d)).length = xs.length ∧
      (xs.map (attachTo "downloadURL" X d)).length = xs.length ∧
      (∀ (i : Nat) (e : Json), xs[i]? = some e →
        (xs.map (attachTo "iconURL" X d))[i]? = some (attachTo "iconURL" X d e) ∧
        (xs.map (attachTo "downloadURL" X d))[i]? = some (attachTo "downloadURL" X d e) ∧
        (entryName e = some X →
          field (attachTo "iconURL" X d e) "iconURL" = some (Json.str d) ∧
          field (attachTo "iconURL" X d e) "downloadURL" = field e "downloadURL" ∧
          field (attachTo "iconURL" X d e) "identifier" = field e "identifier" ∧
          (∀ k, k ≠ "iconURL" → field (attachTo "iconURL" X d e) k = field e k) ∧
          field (attachTo "downloadURL" X d e) "downloadURL" = some (Json.str d) ∧
          field (attachTo "downloadURL" X d e) "iconURL" = field e "iconURL" ∧
          field (attachTo "downloadURL" X d e) "identifier" = field e "identifier" ∧
          (∀ k, k ≠ "downloadURL" → field (attachTo "downloadURL" X d e) k = field e k)) ∧
        (entryName e ≠ some X →
          attachTo "iconURL" X d e = e ∧ attachTo "downloadURL" X d e = e)) ∧
      (∀ k, k ≠ "apps" →
        field stImage.appRepository k = field st.appRepository k ∧
        field stDocument.appRepository k = field st.appRepository k) ∧
      stImage.logs = st.logs ∧ stDocument.logs = st.logs := by
  obtain ⟨kvs, hr, hl⟩ := appsOf_eq_some _ xs ha
  refine ⟨_, _, updateAppInRepository_eq st X "image" d kvs xs hr hl hx,
    updateAppInRepository_eq st X "document" d kvs xs hr hl hx, ?_, ?_, ?_, ?_, ?_, ?_, rfl, rfl⟩
  · simp [appsOf, field, lookup_setKey_self, attachKey]
  · simp [appsOf, field, lookup_setKey_self, attachKey]
  · simp
  · simp
  · intro i e hi
    refine ⟨by simp [hi], by simp [hi], ?_, ?_⟩
    · intro hn
      exact ⟨field_attachTo_self _ _ _ _ hn,
        field_attachTo_ne _ _ _ _ _ (by decide),
        field_attachTo_ne _ _ _ _ _ (by decide),
        fun k hk => field_attachTo_ne _ _ _ _ _ hk,
        field_attachTo_self _ _ _ _ hn,
        field_attachTo_ne _ _ _ _ _ (by decide),
        field_attachTo_ne _ _ _ _ _ (by decide),
        fun k hk => field_attachTo_ne _ _ _ _ _ hk⟩
    · intro hn
      exact ⟨attachTo_of_ne _ _ _ _ hn, attachTo_of_ne _ _ _ _ hn⟩
  · intro k hk
    simp [hr, field, lookup_setKey_ne _ _ _ _ hk]

/-- C3 on the scenario manifest, attaching to the entry `A`. -/
theorem updateAppInRepository_attach_witness :
    (appsOf (⟨demoManifest, []⟩ : Store).appRepository = some [demoEntry] ∧
      ∀ e ∈ [demoEntry], e ≠ Json.null) ∧
    ∃ stImage : Store,
      updateAppInRepository ⟨demoManifest, []⟩ "A" "image" "data:image/png;base64,iVBORw0KGgo=" =
        Except.ok stImage ∧
      appsOf stImage.appRepository =
        some ([demoEntry].map (attachTo "iconURL" "A" "data:image/png;base64,iVBORw0KGgo=")) :=
  ⟨⟨rfl, by simp [demoEntry]⟩,
    let ⟨a, _, h1, _, h3, _⟩ :=
      updateAppInRepository_attach ⟨demoManifest, []⟩ "A" "data:image/png;base64,iVBORw0KGgo="
        [demoEntry] rfl (by simp [demoEntry])
    ⟨a, h1, h3⟩⟩

/-- C4: when no manifest is loaded, or when the manifest has no entry named
`X` (and no `null` entry), `updateAppInRepository` throws nothing and
returns the store it was given, whatever the kind and the data. -/
theorem updateAppInRepository_no_match (st : Store) (X type d : String)
    (h : st.appRepository = Json.null ∨
      ∃ xs, appsOf st.appRepository = some xs ∧
        ∀ e ∈ xs, e ≠ Json.null ∧ entryName e ≠ some X) :
    updateAppInRepository st X type d = Except.ok st := by
  rcases h with h | ⟨xs, ha, hx⟩
  · simp [updateAppInRepository, h, truthy]
  · obtain ⟨kvs, hr, hl⟩ := appsOf_eq_some _ xs ha
    rw [updateAppInRepository_eq st X type d kvs xs hr hl (fun e he => (hx e he).1)]
    have hmap : xs.map (attachTo (attachKey type) X d) = xs := by
      conv_rhs => rw [← List.map_id xs]
      exact List.map_congr_left (fun e he => attachTo_of_ne _ _ _ _ (hx e he).2)
    rw [hmap, setKey_of_lookup _ _ _ hl, ← hr]

/-- C4 on the scenario manifest, attaching a document to the absent name
`B`. -/
theorem updateAppInRepository_no_match_witness :
    updateAppInRepository ⟨demoManifest, []⟩ "B" "document" "data:text/plain;base64,aGk=" =
      Except.ok ⟨demoManifest, []⟩ :=
  updateAppInRepository_no_match ⟨demoManifest, []⟩ "B" "document" "data:text/plain;base64,aGk="
    (Or.inr ⟨[demoEntry], rfl, by simp [demoEntry, entryName, field, lookup]⟩)


/-! ## The search filter -/

theorem jsIncludes_iff_contained (s t : String) :
    jsIncludes s t = true ↔ t.data <:+: s.data := by
  simp only [jsIncludes, List.any_eq_true, List.mem_tails, List.isPrefixOf_iff_prefix]
  rw [List.infix_iff_prefix_suffix]
  exact ⟨fun ⟨u, hs, hp⟩ => ⟨u, hp, hs⟩, fun ⟨u, hp, hs⟩ => ⟨u, hs, hp⟩⟩

theorem matchesQuery_of_entry (lower : String → String) (q : String) (e : Json)
    (h : isAppEntry e = true) :
    matchesQuery lower q e = Except.ok (nameContains lower q e) := by
  simp only [isAppEntry, Option.isSome_iff_exists] at h
  obtain ⟨n, hn⟩ := h
  obtain ⟨kvs, rfl, hl⟩ := entryName_eq_some e n hn
  have hb : jsIncludes (lower n) (lower q) = decide ((lower q).data <:+: (lower n).data) := by
    rw [Bool.eq_iff_iff, jsIncludes_iff_contained, decide_eq_true_iff]
  simp [matchesQuery, hl, nameContains, hn, hb]

theorem nameContains_empty (lower : String → String) (e : Json) (h0 : lower "" = "")
    (h : isAppEntry e = true) : nameContains lower "" e = true := by
  simp only [isAppEntry, Option.isSome_iff_exists] at h
  obtain ⟨n, hn⟩ := h
  simp [nameContains, hn, h0]

theorem filterArray_ok_each (f : Json → Except JsError Bool) (xs r : List Json)
    (h : filterArray f xs = Except.ok r) : ∀ x ∈ xs, ∃ b, f x = Except.ok b := by
  induction xs generalizing r with
  | nil => intro x hx; cases hx
  | cons y rest ih =>
    intro x hx
    cases hy : f y with
    | error e => simp [filterArray, hy] at h
    | ok b =>
      cases hr : filterArray f rest with
      | error e => simp [filterArray, hy, hr] at h
      | ok ys =>
        rcases List.mem_cons.mp hx with hxy | hxr
        · exact ⟨b, by rw [hxy, hy]⟩
        · exact ih ys hr x hxr

theorem isAppEntry_of_matchesQuery (lower : String → String) (q : String) (e : Json) (b : Bool)
    (h : matchesQuery lower q e = Except.ok b) : isAppEntry e = true := by
  cases e with
  | obj kvs =>
    cases hl : lookup "name" kvs with
    | none => simp [matchesQuery, hl] at h
    | some a =>
      cases a <;> simp [matchesQuery, hl] at h
      simp [isAppEntry, entryName, field, hl]
  | _ => simp [matchesQuery] at h

/-- A store whose render went through (`filteredApps` did not throw) holds
either no manifest or a manifest whose entries are all objects with a string
`name`; the handlers bound to the rendered buttons only ever see such a
store. -/
theorem filteredApps_ok_entries_named (lower : String → String) (st : Store) (q : String)
    (r : List Json) (h : filteredApps lower st q = Except.ok r) :
    st.appRepository = Json.null ∨
      ∃ xs, appsOf st.appRepository = some xs ∧ ∀ e ∈ xs, isAppEntry e = true := by
  cases hr : st.appRepository with
  | null => exact Or.inl rfl
  | obj kvs =>
    right
    cases hl : lookup "apps" kvs with
    | none => simp [filteredApps, hr, hl] at h
    | some a =>
      cases a with
      | arr xs =>
        refine ⟨xs, by simp [appsOf, field, hl], ?_⟩
        intro e he
        simp only [filteredApps, hr, hl] at h
        obtain ⟨b, hb⟩ := filterArray_ok_each _ xs r h e he
        exact isAppEntry_of_matchesQuery lower q e b hb
      | _ => simp [filteredApps, hr, hl] at h
  | _ => simp [filteredApps, hr] at h

/-- C5 as stated fails on a manifest that Load JSON accepts and whose
second entry has no `name`: with the empty query the filter throws while it
reads `app.name.toLowerCase()` of that entry, so it yields no list at all,
in particular not the full list of entries. -/
theorem filteredApps_nameless_entry_throws :
    appsOf namelessManifest =
      some [Json.obj [("name", Json.str "A")], Json.obj [("identifier", Json.str "x")]] ∧
    filteredApps asciiLower ⟨namelessManifest, []⟩ "" =
      Except.error
        ⟨"TypeError", "Cannot read properties of undefined (reading 'toLowerCase')"⟩ ∧
    ¬ ∃ r, filteredApps asciiLower ⟨namelessManifest, []⟩ "" = Except.ok r := by
  have h : filteredApps asciiLower ⟨namelessManifest, []⟩ "" =
      Except.error
        ⟨"TypeError", "Cannot read properties of undefined (reading 'toLowerCase')"⟩ := rfl
  refine ⟨rfl, h, ?_⟩
  rintro ⟨r, hr⟩
  rw [h] at hr
  cases hr

/-- C5, amended: with no manifest loaded `filteredApps` is the empty list; on a
manifest whose entries all carry a string name it is the entries, in their
order, whose lower-cased name contains the lower-cased query; the empty
query keeps every entry, and the query `cal` keeps the entries named
`Calendar` and `Rescale`. The function `lower` stands for
`String.prototype.toLowerCase`. -/
theorem filteredApps_spec (lower : String → String) (st : Store) (q : String) :
    (st.appRepository = Json.null → filteredApps lower st q = Except.ok []) ∧
    (∀ xs, appsOf st.appRepository = some xs → (∀ e ∈ xs, isAppEntry e = true) →
      filteredApps lower st q = Except.ok (xs.filter (nameContains lower q)) ∧
      (xs.filter (nameContains lower q)).Sublist xs ∧
      (∀ e, e ∈ xs.filter (nameContains lower q) ↔
        e ∈ xs ∧ ∃ n, entryName e = some n ∧ (lower q).data <:+: (lower n).data) ∧
      (q = "" → lower "" = "" → filteredApps lower st q = Except.ok xs) ∧
      (q = "cal" → lower "cal" = "cal" → lower "Calendar" = "calendar" →
        lower "Rescale" = "rescale" →
        ∀ e ∈ xs, entryName e = some "Calendar" ∨ entryName e = some "Rescale" →
          e ∈ xs.filter (nameContains lower q))) := by
  constructor
  · intro h
    simp [filteredApps, h]
  · intro xs ha hx
    obtain ⟨kvs, hr, hl⟩ := appsOf_eq_some _ xs ha
    have hf : filteredApps lower st q = Except.ok (xs.filter (nameContains lower q)) := by
      simp only [filteredApps, hr, hl]
      exact filterArray_eq_filter _ _ xs (fun e he => matchesQuery_of_entry lower q e (hx e he))
    refine ⟨hf, List.filter_sublist xs, ?_, ?_, ?_⟩
    · intro e
      rw [List.mem_filter]
      constructor
      · rintro ⟨he, hc⟩
        refine ⟨he, ?_⟩
        cases hn : entryName e with
        | none => simp [nameContains, hn] at hc
        | some n =>
          simp only [nameContains, hn, decide_eq_true_eq] at hc
          exact ⟨n, rfl, hc⟩
      · rintro ⟨he, n, hn, hc⟩
        exact ⟨he, by simp [nameContains, hn, hc]⟩
    · intro hq h0
      rw [hf, hq]
      congr 1
      rw [List.filter_eq_self]
      exact fun e he => nameContains_empty lower e h0 (hx e he)
    · intro hq h1 h2 h3 e he hn
      rw [List.mem_filter]
      refine ⟨he, ?_⟩
      rcases hn with hn | hn
      · simp only [nameContains, hn, hq, h1, h2]
        decide
      · simp only [nameContains, hn, hq, h1, h3]
        decide

/-- C5 on a manifest with the entries `Calendar`, `Notes`, `Rescale` and
the query `cal`. -/
theorem filteredApps_spec_witness :
    filteredApps asciiLower ⟨calendarManifest, []⟩ "cal" =
      Except.ok [
        Json.obj [("name", Json.str "Calendar"), ("identifier", Json.str "id.calendar")],
        Json.obj [("name", Json.str "Rescale"), ("identifier", Json.str "id.rescale")]] :=
  ((filteredApps_spec asciiLower ⟨calendarManifest, []⟩ "cal").2 _ rfl
    (by simp [isAppEntry, entryName, field, lookup])).1


/-! ## Export -/

theorem stringify_obj_ne_null (kvs : List (String × Json)) :
    jsonStringify2 (Json.obj kvs) ≠ "null" := by
  intro h
  have hd := congrArg (fun s : String => s.data.head?) h
  cases kvs with
  | nil => revert h; decide
  | cons p rest =>
    obtain ⟨k, v⟩ := p
    simp [jsonStringify2, stringify, String.data_append] at hd

/-- C6 as stated fails when no manifest is loaded: the exported text is
`null`, which is the serialization of no object at all (so of no default
manifest shape with an empty `apps`), and `exportJson` downloads nothing. -/
theorem exportRepository_without_manifest :
    exportRepository Store.initial = "null" ∧
    (¬ ∃ kvs, lookup "apps" kvs = some (Json.arr []) ∧
      exportRepository Store.initial = jsonStringify2 (Json.obj kvs)) ∧
    exportJson "10:00:00" Store.initial = Except.ok (Store.initial, none) := by
  refine ⟨by decide, ?_, rfl⟩
  rintro ⟨kvs, _, h⟩
  exact stringify_obj_ne_null kvs h.symm

theorem spaces_succ (d : Nat) : spaces (2 * d) ++ "  " = spaces (2 * (d + 1)) := by
  apply String.ext
  simp only [spaces, String.data_append]
  show List.replicate (2 * d) (Char.ofNat 32) ++ List.replicate 2 (Char.ofNat 32) = _
  rw [← List.replicate_add]
  rfl

mutual
theorem stringify_eq_prettyJson : ∀ (d : Nat) (v : Json),
    stringify "  " (spaces (2 * d)) v = prettyJson d v
  | _, Json.null => rfl
  | _, Json.bool _ => rfl
  | _, Json.num _ => rfl
  | _, Json.str _ => rfl
  | _, Json.arr [] => rfl
  | d, Json.arr (x :: rest) => by
      simp only [stringify, prettyJson, spaces_succ, stringifyOpen, stringifyClose,
        stringify_eq_prettyJson (d + 1) x, stringifyElems_eq_prettyElems (d + 1) rest]
      simp [String.append_assoc]
      rw [← String.append_assoc "[" "\n"]
      rfl
  | _, Json.obj [] => rfl
  | d, Json.obj ((k, v) :: rest) => by
      simp only [stringify, prettyJson, spaces_succ, stringifyOpen, stringifyClose,
        stringifyColon,
        stringify_eq_prettyJson (d + 1) v, stringifyMembers_eq_prettyMembers (d + 1) rest]
      simp [String.append_assoc]
      rw [← String.append_assoc "\x7b" "\n"]
      rfl
theorem stringifyElems_eq_prettyElems : ∀ (d : Nat) (xs : List Json),
    stringifyElems "  " (spaces (2 * d)) xs = prettyElems d xs
  | _, [] => rfl
  | d, x :: rest => by
      simp only [stringifyElems, prettyElems, stringifySep,
        stringify_eq_prettyJson d x, stringifyElems_eq_prettyElems d rest]
      simp [String.append_assoc]
theorem stringifyMembers_eq_prettyMembers : ∀ (d : Nat) (kvs : List (String × Json)),
    stringifyMembers "  " (spaces (2 * d)) kvs = prettyMembers d kvs
  | _, [] => rfl
  | d, (k, v) :: rest => by
      simp only [stringifyMembers, prettyMembers, stringifySep, stringifyColon,
        stringify_eq_prettyJson d v, stringifyMembers_eq_prettyMembers d rest]
      simp [String.append_assoc]
end

theorem jsonStringify2_eq_prettyJson (v : Json) : jsonStringify2 v = prettyJson 0 v :=
  stringify_eq_prettyJson 0 v

theorem quoteJSONString_plain (s : String)
    (h : ∀ c ∈ s.data, 32 ≤ c.toNat ∧ c.toNat ≠ 34 ∧ c.toNat ≠ 92) :
    quoteJSONString s = "\"" ++ s ++ "\"" := by
  have hj : String.join (s.data.map quoteChar) = s := by
    apply String.ext
    rw [String.data_join]
    have : ∀ l : List Char, (∀ c ∈ l, 32 ≤ c.toNat ∧ c.toNat ≠ 34 ∧ c.toNat ≠ 92) →
        ((l.map quoteChar).map String.data).flatten = l := by
      intro l
      induction l with
      | nil => intro _; rfl
      | cons c rest ih =>
        intro hl
        have hc := hl c (List.mem_cons_self c rest)
        have hq : quoteChar c = String.singleton c := by
          have h8 : c.toNat ≠ 8 := by omega
          have h12 : c.toNat ≠ 12 := by omega
          have h10 : c.toNat ≠ 10 := by omega
          have h13 : c.toNat ≠ 13 := by omega
          have h9 : c.toNat ≠ 9 := by omega
          have h32 : ¬ c.toNat < 32 := by omega
          simp [quoteChar, hc.2.1, hc.2.2, h8, h12, h10, h13, h9, h32]
        simp only [List.map_cons, List.flatten_cons, hq]
        rw [ih (fun x hx => hl x (List.mem_cons_of_mem c hx))]
        rfl
    exact this s.data h
  rw [quoteJSONString, hj]
/-- C6, amended: when a manifest (an object) is loaded, the text of
`exportRepository`, the text copied to the clipboard and, whenever its file
name can be formed, the content of the file downloaded by `exportJson` are
all the 2-space-indented JSON text of that manifest; when no manifest is
loaded `exportJson` downloads nothing. A string without quotation mark,
backslash or control character is written between quotation marks as it is,
and those characters are escaped. -/
theorem exportRepository_spec (now : String) (st : Store) :
    (∀ kvs, st.appRepository = Json.obj kvs →
      exportRepository st = prettyJson 0 (Json.obj kvs) ∧
      (copyJson true now st).2 = some (prettyJson 0 (Json.obj kvs)) ∧
      ∀ base,
        (if truthy (lookup "name" kvs) then jsToStringOpt (lookup "name" kvs)
          else Except.ok "repository") = Except.ok base →
        exportJson now st =
          Except.ok (addLog now st "success" "Repository JSON downloaded",
            some ⟨base ++ ".json", prettyJson 0 (Json.obj kvs)⟩)) ∧
    (st.appRepository = Json.null → exportJson now st = Except.ok (st, none)) ∧
    (∀ s : String, (∀ c ∈ s.data, 32 ≤ c.toNat ∧ c.toNat ≠ 34 ∧ c.toNat ≠ 92) →
      quoteJSONString s = "\"" ++ s ++ "\"") ∧
    quoteJSONString "\"\\\x08\x0c\n\r\t\x00\x1f" =
      "\"\\\"\\\\\\b\\f\\n\\r\\t\\u0000\\u001f\"" := by
  refine ⟨?_, ?_, quoteJSONString_plain, by decide⟩
  · intro kvs hr
    have he : exportRepository st = prettyJson 0 (Json.obj kvs) := by
      rw [exportRepository, hr, jsonStringify2_eq_prettyJson]
    refine ⟨he, ?_, ?_⟩
    · simp [copyJson, he]
    · intro base hb
      have ht : truthy (some (Json.obj kvs)) = true := rfl
      have hx : exportRepository st = prettyJson 0 (Json.obj kvs) := he
      simp only [exportJson, hx]
      simp [hr, ht, getProp, hb]
  · intro h
    simp [exportJson, h, truthy]

/-- C6, amended, on the scenario manifest (the downloaded file is
`Demo.json`) and on a manifest with characters to escape. -/
theorem exportRepository_spec_witness :
    exportJson "10:00:00" ⟨demoManifest, []⟩ =
      Except.ok (addLog "10:00:00" ⟨demoManifest, []⟩ "success" "Repository JSON downloaded",
        some ⟨"Demo.json",
          "\x7b\n  \"name\": \"Demo\",\n  \"apps\": [\n    \x7b\n      \"name\": \"A\",\n      \"identifier\": \"id1\"\n    \x7d\n  ]\n\x7d"⟩) ∧
    exportRepository ⟨escapedManifest, []⟩ =
      "\x7b\n  \"name\": \"Q\\\"uo\\\\te\\n\\u0001\",\n  \"apps\": [],\n  \"version\": 1.5,\n  \"featured\": true,\n  \"website\": null\n\x7d" :=
  ⟨(((exportRepository_spec "10:00:00" ⟨demoManifest, []⟩).1 _ rfl).2.2 "Demo" rfl).trans
      (by rfl),
    (((exportRepository_spec "10:00:00" ⟨escapedManifest, []⟩).1 _ rfl).1).trans (by decide)⟩

/-! ## Reset -/

/-- C7 as stated fails: after a confirmed reset the `name` of the manifest
is `New Repository`, not the empty string. -/
theorem clearRepository_name_not_empty :
    field (clearRepository true "10:00:00" Store.initial).appRepository "name" =
      some (Json.str "New Repository") ∧
    field (clearRepository true "10:00:00" Store.initial).appRepository "name" ≠
      some (Json.str "") := by
  constructor
  · rfl
  · intro h
    have h2 : field (clearRepository true "10:00:00" Store.initial).appRepository "name" =
        some (Json.str "New Repository") := rfl
    rw [h2] at h
    simp at h

/-- C7, amended: a confirmed reset replaces the manifest, whatever it was,
by one fixed object in which `identifier`, `website`, `subtitle`,
`description`, `tintColor` and `iconURL` are the empty string, `name` is
`New Repository`, `apps` and `featuredApps` are empty sequences and there is
no other member, and it appends one `info` entry to the log; a declined
reset returns the store unchanged. -/
theorem clearRepository_spec (now : String) (st : Store) :
    (clearRepository true now st).appRepository = clearedRepository ∧
    field clearedRepository "identifier" = some (Json.str "") ∧
    field clearedRepository "website" = some (Json.str "") ∧
    field clearedRepository "subtitle" = some (Json.str "") ∧
    field clearedRepository "description" = some (Json.str "") ∧
    field clearedRepository "tintColor" = some (Json.str "") ∧
    field clearedRepository "iconURL" = some (Json.str "") ∧
    field clearedRepository "name" = some (Json.str "New Repository") ∧
    appsOf clearedRepository = some [] ∧
    field clearedRepository "featuredApps" = some (Json.arr []) ∧
    (∀ k, k ∉ ["website", "subtitle", "iconURL", "tintColor", "identifier", "featuredApps",
      "description", "name", "apps"] → field clearedRepository k = none) ∧
    (clearRepository true now st).logs = st.logs ++ [⟨"info", "Repository cleared", now⟩] ∧
    clearRepository false now st = st := by
  refine ⟨rfl, rfl, rfl, rfl, rfl, rfl, rfl, rfl, rfl, rfl, ?_, rfl, rfl⟩
  intro k hk
  simp only [List.mem_cons, List.mem_singleton, not_or, List.not_mem_nil, or_false] at hk
  obtain ⟨h1, h2, h3, h4, h5, h6, h7, h8, h9⟩ := hk
  simp [clearedRepository, field, lookup, Ne.symm h1, Ne.symm h2, Ne.symm h3, Ne.symm h4,
    Ne.symm h5, Ne.symm h6, Ne.symm h7, Ne.symm h8, Ne.symm h9]


/-! ## The link list -/

theorem jsTrim_eq_empty_iff (t : String) :
    jsTrim t = "" ↔ ∀ c ∈ t.data, isJsWhiteSpace c = true := by
  have hmk : ∀ l : List Char, String.mk l = "" ↔ l = [] := by
    intro l
    constructor
    · intro h
      exact congrArg String.data h
    · intro h
      rw [h]
  rw [jsTrim, hmk, List.reverse_eq_nil_iff, List.dropWhile_eq_nil_iff]
  constructor
  · intro h
    have hnil : t.data.dropWhile isJsWhiteSpace = [] := by
      by_contra hne
      have hhead := List.head_dropWhile_not isJsWhiteSpace t.data hne
      have hmem := h _ (List.mem_reverse.mpr (List.head_mem hne))
      simp [hmem] at hhead
    exact List.dropWhile_eq_nil_iff.mp hnil
  · intro h c hc
    exact h c ((List.dropWhile_suffix isJsWhiteSpace).subset (List.mem_reverse.mp hc))

theorem jsTrim_spec (t : String) :
    ∃ pre suf : List Char, t.data = pre ++ (jsTrim t).data ++ suf ∧
      (∀ c ∈ pre, isJsWhiteSpace c = true) ∧ (∀ c ∈ suf, isJsWhiteSpace c = true) ∧
      (∀ c, (jsTrim t).data.head? = some c → isJsWhiteSpace c = false) ∧
      (∀ c, (jsTrim t).data.getLast? = some c → isJsWhiteSpace c = false) := by
  have hsplit : (t.data.dropWhile isJsWhiteSpace) =
      ((t.data.dropWhile isJsWhiteSpace).reverse.dropWhile isJsWhiteSpace).reverse ++
        ((t.data.dropWhile isJsWhiteSpace).reverse.takeWhile isJsWhiteSpace).reverse := by
    rw [← List.reverse_append, List.takeWhile_append_dropWhile, List.reverse_reverse]
  refine ⟨t.data.takeWhile isJsWhiteSpace,
    ((t.data.dropWhile isJsWhiteSpace).reverse.takeWhile isJsWhiteSpace).reverse, ?_, ?_, ?_, ?_, ?_⟩
  · simp only [jsTrim]
    rw [List.append_assoc, ← hsplit, List.takeWhile_append_dropWhile]
  · intro c hc
    exact List.mem_takeWhile_imp hc
  · intro c hc
    exact List.mem_takeWhile_imp (List.mem_reverse.mp hc)
  · intro c hc
    simp only [jsTrim] at hc
    have h1 := List.head?_dropWhile_not isJsWhiteSpace t.data
    rw [hsplit, List.head?_append, hc] at h1
    simpa using h1
  · intro c hc
    simp only [jsTrim, List.getLast?_reverse] at hc
    have h1 := List.head?_dropWhile_not isJsWhiteSpace (t.data.dropWhile isJsWhiteSpace).reverse
    rw [hc] at h1
    simpa using h1
/-- C8: the trimmed text is the input text without its leading and trailing
white space (it begins and ends with a character that is not white space,
and is empty exactly when the input is white space only). On a link
sequence `L` and an input text `t`, a text whose trimmed form is empty
leaves the state, and so the persisted text, as it was; any other text
yields `L` followed by one new entry whose `url` is the trimmed text (and
whose `id` is the clock value), and empties the input box. -/
theorem handleAddLink_spec (now : Nat) (L : List Json) (t : String) :
    (∃ pre suf : List Char, t.data = pre ++ (jsTrim t).data ++ suf ∧
      (∀ c ∈ pre, isJsWhiteSpace c = true) ∧ (∀ c ∈ suf, isJsWhiteSpace c = true) ∧
      (∀ c, (jsTrim t).data.head? = some c → isJsWhiteSpace c = false) ∧
      (∀ c, (jsTrim t).data.getLast? = some c → isJsWhiteSpace c = false)) ∧
    (jsTrim t = "" ↔ ∀ c ∈ t.data, isJsWhiteSpace c = true) ∧
    (jsTrim t = "" →
      handleAddLink now ⟨Json.arr L, t⟩ = Except.ok ⟨Json.arr L, t⟩ ∧
      ∀ s, handleAddLink now ⟨Json.arr L, t⟩ = Except.ok s →
        saveLinks s = saveLinks ⟨Json.arr L, t⟩) ∧
    (jsTrim t ≠ "" →
      ∃ e, handleAddLink now ⟨Json.arr L, t⟩ = Except.ok ⟨Json.arr (L ++ [e]), ""⟩ ∧
        field e "url" = some (Json.str (jsTrim t)) ∧
        field e "id" = some (Json.num (toString now)) ∧
        (L ++ [e]).length = L.length + 1 ∧
        ∀ (i : Nat) (x : Json), L[i]? = some x → (L ++ [e])[i]? = some x) := by
  refine ⟨jsTrim_spec t, jsTrim_eq_empty_iff t, ?_, ?_⟩
  · intro h
    have h1 : handleAddLink now ⟨Json.arr L, t⟩ = Except.ok ⟨Json.arr L, t⟩ := by
      simp [handleAddLink, h]
    refine ⟨h1, ?_⟩
    intro s hs
    rw [h1] at hs
    cases hs
    rfl
  · intro h
    refine ⟨Json.obj [("id", Json.num (toString now)), ("url", Json.str (jsTrim t))], ?_, ?_, ?_,
      ?_, ?_⟩
    · simp [handleAddLink, h]
    · simp [field, lookup]
    · simp [field, lookup]
    · simp
    · intro i x hi
      have hlt : i < L.length := by
        by_contra hge
        rw [List.getElem?_eq_none (Nat.le_of_not_lt hge)] at hi
        cases hi
      rw [List.getElem?_append_left hlt]
      exact hi

/-- C8 on a white-space-only text, which changes nothing, and on a text of
the scenario wrapped in white space (space, tab, no-break space, line feed,
byte order mark), whose stored `url` is `example.com`. -/
theorem handleAddLink_spec_witness :
    handleAddLink 1700000000000 ⟨Json.arr duplicateLinks, " \t "⟩ =
      Except.ok ⟨Json.arr duplicateLinks, " \t "⟩ ∧
    ∃ e, handleAddLink 1700000000000 ⟨Json.arr duplicateLinks, " \t\u00A0example.com\n\uFEFF "⟩ =
        Except.ok ⟨Json.arr (duplicateLinks ++ [e]), ""⟩ ∧
      field e "url" = some (Json.str "example.com") ∧
      field e "id" = some (Json.num "1700000000000") :=
  ⟨((handleAddLink_spec 1700000000000 duplicateLinks " \t ").2.2.1 (by decide)).1,
    let ⟨e, h1, h2, h3, _⟩ :=
      (handleAddLink_spec 1700000000000 duplicateLinks " \t\u00A0example.com\n\uFEFF ").2.2.2
        (by decide)
    ⟨e, h1, h2.trans (by rfl), h3.trans (by rfl)⟩⟩

theorem keepLink_eq (i : JsPrim) (e : Json) (h : e ≠ Json.null) :
    keepLink i e = Except.ok (strictNe (field e "id") i) := by
  cases e <;> first | exact absurd rfl h | rfl

/-- C9 as stated fails: when two entries carry the id, deleting by that id
removes both, so the second one is not kept and the length drops by two. -/
theorem handleDeleteLink_removes_all :
    handleDeleteLink (JsPrim.num "1") ⟨Json.arr duplicateLinks, ""⟩ =
      Except.ok ⟨Json.arr [], ""⟩ ∧
    ([] : List Json).length + 1 ≠ duplicateLinks.length ∧
    ([] : List Json) ≠ duplicateLinks.eraseIdx 0 := by
  refine ⟨rfl, by decide, ?_⟩
  intro h
  have hl := congrArg List.length h
  revert hl
  decide

/-- C9, amended: on a link sequence without `null` entries, deleting by a
primitive id keeps, in their order, exactly the entries whose `id` differs
from it, so every entry carrying the id is removed and the length drops by
the number of such entries (by one when the id occurs once); when no entry
carries the id the sequence is unchanged. -/
theorem handleDeleteLink_spec (i : JsPrim) (L : List Json) (t : String)
    (hL : ∀ e ∈ L, e ≠ Json.null) :
    handleDeleteLink i ⟨Json.arr L, t⟩ =
      Except.ok ⟨Json.arr (L.filter (fun e => strictNe (field e "id") i)), t⟩ ∧
    (L.filter (fun e => strictNe (field e "id") i)).Sublist L ∧
    (∀ e, e ∈ L.filter (fun e => strictNe (field e "id") i) ↔
      e ∈ L ∧ strictNe (field e "id") i = true) ∧
    (L.filter (fun e => strictNe (field e "id") i)).length +
      (L.filter (fun e => !strictNe (field e "id") i)).length = L.length ∧
    ((L.filter (fun e => !strictNe (field e "id") i)).length = 1 →
      (L.filter (fun e => strictNe (field e "id") i)).length + 1 = L.length) ∧
    ((∀ e ∈ L, strictNe (field e "id") i = true) →
      handleDeleteLink i ⟨Json.arr L, t⟩ = Except.ok ⟨Json.arr L, t⟩) := by
  have hf := filterArray_eq_filter (keepLink i) (fun e => strictNe (field e "id") i) L
    (fun e he => keepLink_eq i e (hL e he))
  have h1 : handleDeleteLink i ⟨Json.arr L, t⟩ =
      Except.ok ⟨Json.arr (L.filter (fun e => strictNe (field e "id") i)), t⟩ := by
    simp [handleDeleteLink, hf]
  have hlen := List.length_eq_length_filter_add (l := L) (fun e => strictNe (field e "id") i)
  refine ⟨h1, List.filter_sublist L, ?_, ?_, ?_, ?_⟩
  · intro e
    simp [List.mem_filter]
  · simpa using hlen.symm
  · intro hone
    rw [hlen]
    simp only [hone]
  · intro hall
    rw [h1, List.filter_eq_self.mpr hall]

/-- C9, amended, on a sequence of two entries with distinct ids. -/
theorem handleDeleteLink_spec_witness :
    handleDeleteLink (JsPrim.num "2")
        ⟨Json.arr [Json.obj [("id", Json.num "1"), ("url", Json.str "a.example")],
          Json.obj [("id", Json.num "2"), ("url", Json.str "b.example")]], ""⟩ =
      Except.ok ⟨Json.arr [Json.obj [("id", Json.num "1"), ("url", Json.str "a.example")]], ""⟩ :=
  (handleDeleteLink_spec (JsPrim.num "2")
    [Json.obj [("id", Json.num "1"), ("url", Json.str "a.example")],
      Json.obj [("id", Json.num "2"), ("url", Json.str "b.example")]] ""
    (by simp)).1

/-- On mount, an absent or empty stored text leaves the initial empty
sequence, and a stored text that parses makes the parsed value the link
sequence. -/
theorem loadLinks_of_parseable (parse : String → Except JsError Json) (s : LinksState) :
    loadLinks parse s none = Except.ok s ∧
    loadLinks parse s (some "") = Except.ok s ∧
    ∀ text v, text ≠ "" → parse text = Except.ok v →
      loadLinks parse s (some text) = Except.ok ⟨v, s.newLink⟩ := by
  refine ⟨rfl, rfl, ?_⟩
  intro text v hne hp
  simp [loadLinks, hne, hp]

/-- C10, at the stored text `oops`, which `JSON.parse` rejects: the mount
effect throws the `SyntaxError` instead of starting from the empty
sequence. -/
theorem loadLinks_unparseable_throws :
    loadLinks
        (fun _ => Except.error
          ⟨"SyntaxError", "Unexpected token 'o', \"oops\" is not valid JSON"⟩)
        LinksState.initial (some "oops") =
      Except.error ⟨"SyntaxError", "Unexpected token 'o', \"oops\" is not valid JSON"⟩ := by
  rfl


end Glid
